import Mathlib

/-!
Verification of the EST (Equally Sloped Tomography) reconstruction code in
`Notebooks/FBP-EST.ipynb` (functions `EST_Angles` and `EST_reco`).

Shallow embedding conventions:
* floating-point values are modelled by `ℚ` (exact arithmetic);
* a square image of side `S` is a total function `Fin S → Fin S → ℚ`
  (`scipy.ndimage.rotate` is called with `reshape=False`, so rotation
  preserves the canvas shape; this is reflected in the type of the abstract
  rotation parameter `rot : α → Image S → Image S`);
* the external collaborators `scipy.ndimage.rotate` and `skimage`'s `iradon`
  initializer are out of scope for the spec and appear as parameters:
  `rot` for the rotation primitive and `init` for the image produced by
  `iradon(np.rot90(sinogram, -1), theta=theta, circle=True)`;
* `np.inf`, the initial value of `previous_error`, is modelled by
  `none : Option ℚ` — the convergence test `|previous_error - max_error| <
  tolerance` is false whenever `previous_error` is infinite and `max_error`
  is finite, exactly as for floats;
* the Python loop body mutates `estimated_image` in place; this is modelled
  by explicit state passing: a `Frame` record carries the sinogram, the
  angle list, the current image and `previous_error`, and each iteration is
  a function `Frame → Frame`.
-/

/-- Square 2D grid of rationals, side `S`; models a numpy `(S, S)` float array. -/
abbrev Image (S : ℕ) := Fin S → Fin S → ℚ

/-- Per-column sums of an image: models `np.sum(rotated_image, axis=0)`, the
1D projection profile, whose length equals the image side `S`. -/
def colsum {S : ℕ} (img : Image S) : List ℚ :=
  (List.finRange S).map (fun j => ((List.finRange S).map (fun i => img i j)).sum)

/-- Resize a 1D profile to exactly `D` samples, mirroring the source's
`if projection.shape[0] > num_detectors: ... elif ... < ...: np.pad(...)`:
truncate to the first `D` samples when longer, zero-pad at the trailing end
when shorter, leave unchanged when equal. -/
def resizeProfile (D : ℕ) (p : List ℚ) : List ℚ :=
  if D < p.length then p.take D
  else if p.length < D then p ++ List.replicate (D - p.length) 0
  else p

/-- Forward projection: for each angle, rotate the image, sum along axis 0 and
resize the profile to `D` detector samples; models the first inner loop of
`EST_reco` building the `projections` array row by row. -/
def project {S : ℕ} {α : Type} (rot : α → Image S → Image S) (D : ℕ)
    (theta : List α) (img : Image S) : List (List ℚ) :=
  theta.map (fun a => resizeProfile D (colsum (rot a img)))

/-- Element-wise difference of two sinograms: models `error = sinogram - projections`. -/
def sub2 (x y : List (List ℚ)) : List (List ℚ) :=
  List.zipWith (fun r s => List.zipWith (fun a b => a - b) r s) x y

/-- Fold computing `max` of absolute values with base 0; agrees with
`np.max(np.abs(...))` on any non-empty array since all `|x|` are ≥ 0. -/
def maxAbsList (l : List ℚ) : ℚ := l.foldr (fun x m => max |x| m) 0

/-- Maximum absolute entry of a sinogram: models `np.max(np.abs(error))`. -/
def maxAbs2 (m : List (List ℚ)) : ℚ := maxAbsList m.flatten

/-- All entries of an image, flattened row-major into a list. -/
def imgEntries {S : ℕ} (img : Image S) : List ℚ :=
  (List.finRange S).flatMap (fun i => (List.finRange S).map (fun j => img i j))

/-- Maximum absolute entry of an image: models `np.max(np.abs(backprojected_error))`. -/
def maxAbsImg {S : ℕ} (img : Image S) : ℚ := maxAbsList (imgEntries img)

/-- Broadcast one residual row across all image rows, leading `r.length`
columns holding the residual and the rest zero: models
`expanded_error[:, :num_detectors] = error[i, :].reshape(-1, num_detectors)`
into `np.zeros_like(estimated_image)` (for `num_detectors ≤ S`, the shape
produced by the initializer). -/
def expandRow {S : ℕ} (r : List ℚ) : Image S := fun _ j => r.getD j.val 0

/-- Backprojection: accumulate, over the angles in order, the rotation by the
negated angle of each broadcast residual row; models the second inner loop of
`EST_reco` accumulating `backprojected_error`. -/
def backproject {S : ℕ} {α : Type} [Neg α] (rot : α → Image S → Image S)
    (theta : List α) (err : List (List ℚ)) : Image S :=
  (theta.zip err).foldl
    (fun acc p => fun i j => acc i j + rot (-p.1) (expandRow p.2) i j)
    (fun _ _ => 0)

/-- Guarded normalization: divide by `max(abs)` only when it is nonzero,
mirroring `if np.max(np.abs(backprojected_error)) != 0: backprojected_error /= ...`. -/
def normalizeCorr {S : ℕ} (bp : Image S) : Image S :=
  if maxAbsImg bp ≠ 0 then fun i j => bp i j / maxAbsImg bp else bp

/-- Convergence test `np.abs(previous_error - max_error) < tolerance`;
`none` models the initial `previous_error = np.inf`, for which the float
difference from a finite `max_error` is infinite and the test is false. -/
def convCheck (prev : Option ℚ) (me tol : ℚ) : Bool :=
  match prev with
  | none => false
  | some p => decide (|p - me| < tol)

/-- Mutable state of one `EST_reco` run: the observed sinogram and angle list
(read by the loop), the current `estimated_image`, and `previous_error`. -/
structure Frame (S : ℕ) (α : Type) where
  sino : List (List ℚ)
  theta : List α
  image : Image S
  prevError : Option ℚ

/-- Outcome of the iteration loop: final state, number of loop iterations
entered, and whether the early-stopping `break` was taken. -/
structure LoopOut (S : ℕ) (α : Type) where
  frame : Frame S α
  iters : ℕ
  converged : Bool

/-- The early-stopping test as evaluated at the top of one iteration on the
current state: `np.abs(previous_error - max_error) < tolerance`. -/
def checkFires {S : ℕ} {α : Type} (rot : α → Image S → Image S) (D : ℕ) (tol : ℚ)
    (fr : Frame S α) : Bool :=
  convCheck fr.prevError (maxAbs2 (sub2 fr.sino (project rot D fr.theta fr.image))) tol

/-- One full (non-breaking) iteration of the `EST_reco` loop: forward project,
take the residual, record its max as `previous_error`, backproject, apply the
guarded normalization, the gradient update
`estimated_image += learning_rate * (backprojected_error / num_projections)`
and the clip `estimated_image = np.maximum(estimated_image, 0)`. -/
def estBody {S : ℕ} {α : Type} [Neg α] (rot : α → Image S → Image S) (D P : ℕ) (lr : ℚ)
    (fr : Frame S α) : Frame S α where
  sino := fr.sino
  theta := fr.theta
  image := fun i j => max (fr.image i j + lr *
    (normalizeCorr (backproject rot fr.theta
        (sub2 fr.sino (project rot D fr.theta fr.image))) i j / (P : ℚ))) 0
  prevError := some (maxAbs2 (sub2 fr.sino (project rot D fr.theta fr.image)))

/-- The `for iteration in range(num_iterations)` loop of `EST_reco`: at each
iteration the convergence check runs first and, if it fires, the loop breaks
with the state unchanged from that iteration's start; otherwise the full body
runs and iteration continues with the remaining budget. -/
def estLoop {S : ℕ} {α : Type} [Neg α] (rot : α → Image S → Image S) (D P : ℕ)
    (tol lr : ℚ) : ℕ → Frame S α → LoopOut S α
  | 0, fr => ⟨fr, 0, false⟩
  | n + 1, fr =>
    if checkFires rot D tol fr then ⟨fr, 1, true⟩
    else
      ⟨(estLoop rot D P tol lr n (estBody rot D P lr fr)).frame,
       (estLoop rot D P tol lr n (estBody rot D P lr fr)).iters + 1,
       (estLoop rot D P tol lr n (estBody rot D P lr fr)).converged⟩

/-- `EST_reco` with its run trace: `num_projections, num_detectors =
sinogram.shape`, the initial image is the external initializer's output
`init`, `previous_error` starts at infinity (`none`), and the loop runs with
budget `numIter`. -/
def EST_recoFull {S : ℕ} {α : Type} [Neg α] (rot : α → Image S → Image S)
    (init : Image S) (sino : List (List ℚ)) (theta : List α)
    (numIter : ℕ) (tol lr : ℚ) : LoopOut S α :=
  estLoop rot (sino.headD []).length sino.length tol lr numIter ⟨sino, theta, init, none⟩

/-- The value `EST_reco` returns: the final `estimated_image`. -/
def EST_reco {S : ℕ} {α : Type} [Neg α] (rot : α → Image S → Image S)
    (init : Image S) (sino : List (List ℚ)) (theta : List α)
    (numIter : ℕ) (tol lr : ℚ) : Image S :=
  (EST_recoFull rot init sino theta numIter tol lr).frame.image

/-- Model of `np.linspace(start, stop, num)` with `endpoint=True`: values
`start + k * (stop - start)/(num - 1)` with the last sample set to `stop`
exactly (numpy assigns `y[-1] = stop`); `num = 1` yields `[start]`. -/
def linspace (a b : ℚ) (num : ℕ) : List ℚ :=
  if num = 0 then []
  else if num = 1 then [a]
  else (List.range num).map (fun k =>
    if k = num - 1 then b else a + (k : ℚ) * ((b - a) / ((num : ℚ) - 1)))

/-- The source's `EST_Angles`: `np.arcsin(np.linspace(-1, 1, num_projections))
* 180 / np.pi`, producing angles in degrees whose sines are equally spaced
over `[-1, 1]`. -/
noncomputable def EST_Angles (n : ℕ) : List ℝ :=
  (linspace (-1) 1 n).map (fun q : ℚ => Real.arcsin (q : ℝ) * 180 / Real.pi)

/-! ### List-level helper lemmas -/

theorem maxAbsList_nil : maxAbsList [] = 0 := rfl

theorem maxAbsList_cons (x : ℚ) (l : List ℚ) :
    maxAbsList (x :: l) = max |x| (maxAbsList l) := rfl

theorem maxAbsList_nonneg (l : List ℚ) : 0 ≤ maxAbsList l := by
  induction l with
  | nil => exact le_refl 0
  | cons x l ih =>
    rw [maxAbsList_cons]
    exact le_trans ih (le_max_right _ _)

theorem abs_le_maxAbsList {x : ℚ} {l : List ℚ} (h : x ∈ l) : |x| ≤ maxAbsList l := by
  induction l with
  | nil => cases h
  | cons y l ih =>
    rw [maxAbsList_cons]
    rcases List.mem_cons.mp h with h1 | h2
    · rw [h1]; exact le_max_left _ _
    · exact le_trans (ih h2) (le_max_right _ _)

theorem maxAbsList_eq_zero_iff (l : List ℚ) :
    maxAbsList l = 0 ↔ ∀ x ∈ l, x = 0 := by
  constructor
  · intro h x hx
    have hb := abs_le_maxAbsList hx
    rw [h] at hb
    exact abs_eq_zero.mp (le_antisymm hb (abs_nonneg x))
  · intro h
    induction l with
    | nil => rfl
    | cons x l ih =>
      rw [maxAbsList_cons, h x (List.mem_cons_self x l), abs_zero]
      rw [ih (fun y hy => h y (List.mem_cons_of_mem x hy))]
      exact max_self 0

theorem getD_map_of_lt {β γ : Type} (f : β → γ) (dflt : γ) :
    ∀ (l : List β) (k : ℕ) (hk : k < l.length),
      (l.map f).getD k dflt = f (l.get ⟨k, hk⟩) := by
  intro l
  induction l with
  | nil => intro k hk; cases hk
  | cons x l ih =>
    intro k hk
    cases k with
    | zero => rfl
    | succ k => exact ih k (Nat.lt_of_succ_lt_succ hk)

theorem getD_of_lt {β : Type} (dflt : β) :
    ∀ (l : List β) (k : ℕ) (hk : k < l.length), l.getD k dflt = l.get ⟨k, hk⟩ := by
  intro l
  induction l with
  | nil => intro k hk; cases hk
  | cons x l ih =>
    intro k hk
    cases k with
    | zero => rfl
    | succ k => exact ih k (Nat.lt_of_succ_lt_succ hk)

theorem getD_take_of_lt :
    ∀ (l : List ℚ) (D k : ℕ), k < D → (l.take D).getD k 0 = l.getD k 0 := by
  intro l
  induction l with
  | nil => intro D k _; rw [List.take_nil]
  | cons x l ih =>
    intro D k hk
    cases D with
    | zero => cases hk
    | succ D =>
      rw [List.take_succ_cons]
      cases k with
      | zero => rfl
      | succ k => exact ih D k (Nat.lt_of_succ_lt_succ hk)

theorem getD_append_of_lt :
    ∀ (l m : List ℚ) (k : ℕ), k < l.length → (l ++ m).getD k 0 = l.getD k 0 := by
  intro l
  induction l with
  | nil => intro m k hk; cases hk
  | cons x l ih =>
    intro m k hk
    cases k with
    | zero => rfl
    | succ k => exact ih m k (Nat.lt_of_succ_lt_succ hk)

theorem getD_replicate_zero : ∀ (c k : ℕ), (List.replicate c (0:ℚ)).getD k 0 = 0 := by
  intro c
  induction c with
  | zero => intro k; rfl
  | succ c ih =>
    intro k
    rw [List.replicate_succ]
    cases k with
    | zero => rfl
    | succ k => exact ih k

theorem getD_append_replicate_of_ge :
    ∀ (l : List ℚ) (c k : ℕ), l.length ≤ k →
      (l ++ List.replicate c (0:ℚ)).getD k 0 = 0 := by
  intro l
  induction l with
  | nil => intro c k _; exact getD_replicate_zero c k
  | cons x l ih =>
    intro c k hk
    cases k with
    | zero => cases hk
    | succ k => exact ih c k (Nat.le_of_succ_le_succ hk)

theorem getD_zero_of_all_zero :
    ∀ (l : List ℚ), (∀ v ∈ l, v = 0) → ∀ (k : ℕ), l.getD k 0 = 0 := by
  intro l
  induction l with
  | nil => intro _ k; rfl
  | cons x l ih =>
    intro h k
    cases k with
    | zero => exact h x (List.mem_cons_self x l)
    | succ k => exact ih (fun v hv => h v (List.mem_cons_of_mem x hv)) k

theorem mem_zipWith_self {β γ : Type} (g : β → β → γ) :
    ∀ (l : List β) (c : γ), c ∈ List.zipWith g l l → ∃ b ∈ l, c = g b b := by
  intro l
  induction l with
  | nil => intro c h; cases h
  | cons x l ih =>
    intro c h
    rcases List.mem_cons.mp h with h1 | h2
    · exact ⟨x, List.mem_cons_self x l, h1⟩
    · obtain ⟨b, hb, hc⟩ := ih c h2
      exact ⟨b, List.mem_cons_of_mem x hb, hc⟩

/-! ### Image-level helper lemmas -/

theorem mem_imgEntries {S : ℕ} (img : Image S) (i j : Fin S) :
    img i j ∈ imgEntries img := by
  unfold imgEntries
  exact List.mem_flatMap.mpr
    ⟨i, List.mem_finRange i, List.mem_map.mpr ⟨j, List.mem_finRange j, rfl⟩⟩

theorem exists_of_mem_imgEntries {S : ℕ} (img : Image S) (x : ℚ)
    (h : x ∈ imgEntries img) : ∃ i j, x = img i j := by
  unfold imgEntries at h
  obtain ⟨i, _, h2⟩ := List.mem_flatMap.mp h
  obtain ⟨j, _, h3⟩ := List.mem_map.mp h2
  exact ⟨i, j, h3.symm⟩

theorem maxAbsImg_eq_zero_iff {S : ℕ} (img : Image S) :
    maxAbsImg img = 0 ↔ ∀ i j, img i j = 0 := by
  unfold maxAbsImg
  rw [maxAbsList_eq_zero_iff]
  constructor
  · intro h i j
    exact h (img i j) (mem_imgEntries img i j)
  · intro h x hx
    obtain ⟨i, j, hij⟩ := exists_of_mem_imgEntries img x hx
    rw [hij]
    exact h i j

theorem maxAbsImg_zero_fun {S : ℕ} :
    maxAbsImg (fun _ _ => (0:ℚ) : Image S) = 0 :=
  (maxAbsImg_eq_zero_iff _).mpr (fun _ _ => rfl)

theorem sub2_self_entries (x : List (List ℚ)) :
    ∀ r ∈ sub2 x x, ∀ v ∈ r, v = 0 := by
  intro r hr v hv
  obtain ⟨r0, _, hr0⟩ := mem_zipWith_self _ x r hr
  rw [hr0] at hv
  obtain ⟨b, _, hb⟩ := mem_zipWith_self _ r0 v hv
  rw [hb]
  exact sub_self b

theorem maxAbs2_sub_self (x : List (List ℚ)) : maxAbs2 (sub2 x x) = 0 := by
  unfold maxAbs2
  rw [maxAbsList_eq_zero_iff]
  intro v hv
  obtain ⟨r, hr, hvr⟩ := List.mem_flatten.mp hv
  exact sub2_self_entries x r hr v hvr

theorem expandRow_zero {S : ℕ} (r : List ℚ) (h : ∀ v ∈ r, v = 0) :
    (expandRow r : Image S) = fun _ _ => 0 := by
  funext i j
  exact getD_zero_of_all_zero r h j.val

theorem foldl_backproject_zero {S : ℕ} {α : Type} [Neg α]
    (rot : α → Image S → Image S)
    (hrot : ∀ a : α, rot a (fun _ _ => 0) = fun _ _ => 0) :
    ∀ (ps : List (α × List ℚ)), (∀ p ∈ ps, ∀ v ∈ p.2, v = 0) →
    ∀ (acc : Image S), (∀ i j, acc i j = 0) →
    ∀ i j, (ps.foldl (fun acc p => fun i j => acc i j + rot (-p.1) (expandRow p.2) i j)
      acc) i j = 0 := by
  intro ps
  induction ps with
  | nil => intro _ acc hacc i j; exact hacc i j
  | cons p ps ih =>
    intro hps acc hacc i j
    rw [List.foldl_cons]
    refine ih (fun q hq => hps q (List.mem_cons_of_mem p hq)) _ ?_ i j
    intro i j
    have h2 : (expandRow p.2 : Image S) = fun _ _ => 0 :=
      expandRow_zero p.2 (hps p (List.mem_cons_self p ps))
    rw [h2, hrot, hacc i j]
    exact add_zero 0

theorem backproject_zero_residual {S : ℕ} {α : Type} [Neg α]
    (rot : α → Image S → Image S) (theta : List α) (err : List (List ℚ))
    (hrot : ∀ a : α, rot a (fun _ _ => 0) = fun _ _ => 0)
    (herr : ∀ r ∈ err, ∀ v ∈ r, v = 0) :
    backproject rot theta err = fun _ _ => 0 := by
  funext i j
  unfold backproject
  refine foldl_backproject_zero rot hrot (theta.zip err) ?_ _ (fun _ _ => rfl) i j
  intro p hp v hv
  exact herr p.2 (List.of_mem_zip hp).2 v hv

theorem estBody_zero_residual {S : ℕ} {α : Type} [Neg α]
    (rot : α → Image S → Image S) (D P : ℕ) (lr : ℚ)
    (theta : List α) (init : Image S) (pe : Option ℚ)
    (hrot : ∀ a : α, rot a (fun _ _ => 0) = fun _ _ => 0)
    (hinit : ∀ i j, 0 ≤ init i j) :
    estBody rot D P lr ⟨project rot D theta init, theta, init, pe⟩ =
      ⟨project rot D theta init, theta, init, some 0⟩ := by
  have hbp : backproject rot theta
      (sub2 (project rot D theta init) (project rot D theta init)) = fun _ _ => 0 :=
    backproject_zero_residual rot theta _ hrot (sub2_self_entries _)
  unfold estBody
  simp only [maxAbs2_sub_self, hbp]
  have hnc : normalizeCorr (fun _ _ => 0 : Image S) = fun _ _ => 0 := by
    unfold normalizeCorr
    rw [if_neg]
    intro hne
    exact hne maxAbsImg_zero_fun
  rw [hnc]
  congr 1
  funext i j
  rw [zero_div, mul_zero, add_zero]
  exact max_eq_left (hinit i j)

/-! ### Loop-level helper lemmas -/

theorem convCheck_none (me tol : ℚ) : convCheck none me tol = false := rfl

theorem convCheck_of_nonpos (pe : Option ℚ) (me : ℚ) {tol : ℚ} (h : tol ≤ 0) :
    convCheck pe me tol = false := by
  cases pe with
  | none => rfl
  | some p =>
    have hnot : ¬ (|p - me| < tol) := fun hlt =>
      absurd (lt_of_le_of_lt (abs_nonneg _) hlt) (not_lt.mpr h)
    simp [convCheck, hnot]

theorem checkFires_of_none {S : ℕ} {α : Type} (rot : α → Image S → Image S)
    (D : ℕ) (tol : ℚ) (fr : Frame S α) (h : fr.prevError = none) :
    checkFires rot D tol fr = false := by
  unfold checkFires
  rw [h]
  rfl

theorem estLoop_sino_theta {S : ℕ} {α : Type} [Neg α]
    (rot : α → Image S → Image S) (D P : ℕ) (tol lr : ℚ) :
    ∀ (n : ℕ) (fr : Frame S α),
      (estLoop rot D P tol lr n fr).frame.sino = fr.sino ∧
      (estLoop rot D P tol lr n fr).frame.theta = fr.theta := by
  intro n
  induction n with
  | zero => intro fr; exact ⟨rfl, rfl⟩
  | succ n ih =>
    intro fr
    unfold estLoop
    by_cases h : checkFires rot D tol fr
    · rw [if_pos h]
      exact ⟨rfl, rfl⟩
    · rw [if_neg h]
      exact ih (estBody rot D P lr fr)

theorem estBody_image_nonneg {S : ℕ} {α : Type} [Neg α]
    (rot : α → Image S → Image S) (D P : ℕ) (lr : ℚ) (fr : Frame S α)
    (i j : Fin S) : 0 ≤ (estBody rot D P lr fr).image i j :=
  le_max_right _ 0

theorem estLoop_image_nonneg {S : ℕ} {α : Type} [Neg α]
    (rot : α → Image S → Image S) (D P : ℕ) (tol lr : ℚ) :
    ∀ (n : ℕ) (fr : Frame S α), (∀ i j, 0 ≤ fr.image i j) →
      ∀ i j, 0 ≤ (estLoop rot D P tol lr n fr).frame.image i j := by
  intro n
  induction n with
  | zero => intro fr h i j; exact h i j
  | succ n ih =>
    intro fr h i j
    unfold estLoop
    by_cases hc : checkFires rot D tol fr
    · rw [if_pos hc]; exact h i j
    · rw [if_neg hc]
      exact ih (estBody rot D P lr fr) (estBody_image_nonneg rot D P lr fr) i j

theorem estLoop_converged_iters {S : ℕ} {α : Type} [Neg α]
    (rot : α → Image S → Image S) (D P : ℕ) (tol lr : ℚ) :
    ∀ (n : ℕ) (fr : Frame S α),
      (estLoop rot D P tol lr n fr).converged = true →
      1 ≤ (estLoop rot D P tol lr n fr).iters := by
  intro n
  induction n with
  | zero => intro fr h; cases h
  | succ n ih =>
    intro fr h
    unfold estLoop at h ⊢
    by_cases hc : checkFires rot D tol fr
    · rw [if_pos hc]
    · rw [if_neg hc]
      exact Nat.succ_le_succ (Nat.zero_le _)

theorem estLoop_not_converged_of_nonpos {S : ℕ} {α : Type} [Neg α]
    (rot : α → Image S → Image S) (D P : ℕ) {tol : ℚ} (lr : ℚ) (h : tol ≤ 0) :
    ∀ (n : ℕ) (fr : Frame S α), (estLoop rot D P tol lr n fr).converged = false := by
  intro n
  induction n with
  | zero => intro fr; rfl
  | succ n ih =>
    intro fr
    unfold estLoop
    rw [if_neg]
    · exact ih (estBody rot D P lr fr)
    · unfold checkFires
      rw [convCheck_of_nonpos _ _ h]
      exact Bool.false_ne_true

theorem estLoop_fires_at {S : ℕ} {α : Type} [Neg α]
    (rot : α → Image S → Image S) (D P : ℕ) (tol lr : ℚ) :
    ∀ (k n : ℕ) (fr : Frame S α),
      (∀ j, j < k → checkFires rot D tol ((estBody rot D P lr)^[j] fr) = false) →
      checkFires rot D tol ((estBody rot D P lr)^[k] fr) = true →
      k < n →
      estLoop rot D P tol lr n fr = ⟨(estBody rot D P lr)^[k] fr, k + 1, true⟩ := by
  intro k
  induction k with
  | zero =>
    intro n fr _ hfire hn
    obtain ⟨m, rfl⟩ : ∃ m, n = m + 1 := ⟨n - 1, by omega⟩
    rw [Function.iterate_zero_apply] at hfire
    unfold estLoop
    rw [if_pos hfire]
    rw [Function.iterate_zero_apply]
  | succ k ih =>
    intro n fr hno hfire hn
    obtain ⟨m, rfl⟩ : ∃ m, n = m + 1 := ⟨n - 1, by omega⟩
    have h0 : checkFires rot D tol fr = false := by
      have := hno 0 (Nat.succ_pos k)
      rwa [Function.iterate_zero_apply] at this
    unfold estLoop
    rw [if_neg (by rw [h0]; exact Bool.false_ne_true)]
    have hrec : estLoop rot D P tol lr m (estBody rot D P lr fr) =
        ⟨(estBody rot D P lr)^[k] (estBody rot D P lr fr), k + 1, true⟩ := by
      refine ih m (estBody rot D P lr fr) ?_ ?_ (by omega)
      · intro j hj
        rw [← Function.iterate_succ_apply]
        exact hno (j + 1) (by omega)
      · rw [← Function.iterate_succ_apply]
        exact hfire
    rw [hrec, ← Function.iterate_succ_apply]

/-! ### Angle-sampler helper lemmas -/

theorem linspace_length (a b : ℚ) (num : ℕ) : (linspace a b num).length = num := by
  unfold linspace
  split_ifs with h0 h1
  · simp [h0]
  · simp [h1]
  · rw [List.length_map, List.length_range]

theorem linspace_getD (a b : ℚ) (n k : ℕ) (hn : 2 ≤ n) (hk : k < n) :
    (linspace a b n).getD k 0 = a + (k : ℚ) * ((b - a) / ((n : ℚ) - 1)) := by
  have hne : ((n : ℚ) - 1) ≠ 0 := by
    have h2 : (2 : ℚ) ≤ (n : ℚ) := by exact_mod_cast hn
    intro h
    have h3 : (n : ℚ) = 1 := sub_eq_zero.mp h
    rw [h3] at h2
    norm_num at h2
  unfold linspace
  rw [if_neg (by omega), if_neg (by omega)]
  have hk2 : k < (List.range n).length := by rwa [List.length_range]
  rw [getD_map_of_lt _ _ _ k hk2]
  have hget : (List.range n).get ⟨k, hk2⟩ = k := by simp
  rw [hget]
  by_cases hke : k = n - 1
  · rw [if_pos hke, hke]
    have hc : ((n - 1 : ℕ) : ℚ) = (n : ℚ) - 1 := by
      rw [Nat.cast_sub (by omega : 1 ≤ n)]
      norm_num
    rw [hc]
    field_simp
  · rw [if_neg hke]

theorem EST_Angles_length (n : ℕ) : (EST_Angles n).length = n := by
  unfold EST_Angles
  rw [List.length_map, linspace_length]

theorem EST_Angles_getD (n k : ℕ) (hn : 2 ≤ n) (hk : k < n) :
    (EST_Angles n).getD k 0 =
      Real.arcsin (-1 + 2 * (k : ℝ) / ((n : ℝ) - 1)) * 180 / Real.pi := by
  unfold EST_Angles
  have hk2 : k < (linspace (-1) 1 n).length := by rwa [linspace_length]
  rw [getD_map_of_lt _ _ _ k hk2]
  rw [← getD_of_lt (0:ℚ) _ k hk2]
  rw [linspace_getD _ _ n k hn hk]
  have harg : (((-1 : ℚ) + (k:ℚ) * ((1 - -1) / ((n:ℚ) - 1)) : ℚ) : ℝ)
      = -1 + 2 * (k : ℝ) / ((n : ℝ) - 1) := by
    push_cast
    ring
  rw [harg]

/-! ### Shape lemmas for the forward projector -/

theorem resizeProfile_length (D : ℕ) (p : List ℚ) : (resizeProfile D p).length = D := by
  unfold resizeProfile
  split_ifs with h1 h2
  · rw [List.length_take]; omega
  · rw [List.length_append, List.length_replicate]; omega
  · omega

theorem colsum_length {S : ℕ} (img : Image S) : (colsum img).length = S := by
  unfold colsum
  rw [List.length_map, List.length_finRange]

theorem resizeProfile_getD (D : ℕ) (p : List ℚ) (d : ℕ) (hd : d < D) :
    (resizeProfile D p).getD d 0 = if d < p.length then p.getD d 0 else 0 := by
  unfold resizeProfile
  by_cases h1 : D < p.length
  · rw [if_pos h1, if_pos (by omega : d < p.length)]
    exact getD_take_of_lt p D d hd
  · rw [if_neg h1]
    by_cases h2 : p.length < D
    · rw [if_pos h2]
      by_cases h3 : d < p.length
      · rw [if_pos h3]
        exact getD_append_of_lt p _ d h3
      · rw [if_neg h3]
        exact getD_append_replicate_of_ge p _ d (by omega)
    · rw [if_neg h2, if_pos (by omega : d < p.length)]

/-! ### Claim theorems -/

/-- C4: for any square image of shape (S,S) and angle set of length P with
configured detector count D, the forward projection has exactly P rows of
exactly D samples each, regardless of how S compares to D; each per-angle
profile has length S, and row entry d (for d < D) is the profile sample at d
when d < S (truncation keeps the first D samples) and 0 when d ≥ S
(zero-padding at the trailing end). -/
theorem C4_project_shape {S : ℕ} {α : Type} (rot : α → Image S → Image S) (D : ℕ)
    (theta : List α) (img : Image S) :
    (project rot D theta img).length = theta.length ∧
    (∀ r ∈ project rot D theta img, r.length = D) ∧
    (∀ a : α, (colsum (rot a img)).length = S) ∧
    ∀ k (hk : k < theta.length) (d : ℕ), d < D →
      ((project rot D theta img).getD k []).getD d 0 =
        if d < S then (colsum (rot (theta.get ⟨k, hk⟩) img)).getD d 0 else 0 := by
  refine ⟨?_, ?_, ?_, ?_⟩
  · unfold project
    rw [List.length_map]
  · intro r hr
    obtain ⟨a, _, hra⟩ := List.mem_map.mp hr
    rw [← hra, resizeProfile_length]
  · intro a
    exact colsum_length _
  · intro k hk d hd
    unfold project
    rw [getD_map_of_lt (fun a => resizeProfile D (colsum (rot a img))) [] theta k hk]
    rw [resizeProfile_getD D _ d hd, colsum_length]

/-- C4 witness: concrete instance with S = 2, D = 1 (truncation branch),
angle set of length 1, evaluated at row 0, detector 0. -/
theorem C4_witness :
    ((project (fun (_ : ℚ) (img : Image 2) => img) 1 [(0:ℚ)]
        (fun _ _ => 1)).getD 0 []).getD 0 0 =
      if 0 < 2 then (colsum ((fun (_ : ℚ) (img : Image 2) => img)
        ([(0:ℚ)].get ⟨0, by norm_num⟩) (fun _ _ => 1))).getD 0 0 else 0 :=
  (C4_project_shape (fun (_ : ℚ) (img : Image 2) => img) 1 [(0:ℚ)]
    (fun _ _ => 1)).2.2.2 0 (by norm_num) 0 (by norm_num)

/-- C5: for every n ≥ 2, EST_Angles n returns exactly n angles in degrees
whose k-th element equals arcsin(-1 + 2*k/(n-1)) converted to degrees, for
k = 0..n-1 — sines equally spaced over [-1, 1]. -/
theorem C5_EST_Angles_formula (n : ℕ) (hn : 2 ≤ n) :
    (EST_Angles n).length = n ∧
    ∀ k, k < n → (EST_Angles n).getD k 0 =
      Real.arcsin (-1 + 2 * (k : ℝ) / ((n : ℝ) - 1)) * 180 / Real.pi :=
  ⟨EST_Angles_length n, fun k hk => EST_Angles_getD n k hn hk⟩

/-- C5 witness: the middle angle of EST_Angles 3. -/
theorem C5_witness :
    2 ≤ 3 ∧ (EST_Angles 3).getD 1 0 =
      Real.arcsin (-1 + 2 * ((1:ℕ) : ℝ) / (((3:ℕ) : ℝ) - 1)) * 180 / Real.pi :=
  ⟨by norm_num, (C5_EST_Angles_formula 3 (by norm_num)).2 1 (by norm_num)⟩

/-- C8: for every n ≥ 2 the angle set of EST_Angles n is symmetric about 0:
the k-th angle is the negation of the (n-1-k)-th angle. -/
theorem C8_EST_Angles_symmetric (n : ℕ) (hn : 2 ≤ n) (k : ℕ) (hk : k < n) :
    (EST_Angles n).getD k 0 = -((EST_Angles n).getD (n - 1 - k) 0) := by
  rw [EST_Angles_getD n k hn hk, EST_Angles_getD n (n - 1 - k) hn (by omega)]
  have hne : ((n : ℝ) - 1) ≠ 0 := by
    have h2 : (2 : ℝ) ≤ (n : ℝ) := by exact_mod_cast hn
    intro h
    have h3 : (n : ℝ) = 1 := sub_eq_zero.mp h
    rw [h3] at h2
    norm_num at h2
  have e1 : ((n - 1 - k : ℕ) : ℝ) = (n : ℝ) - 1 - (k : ℝ) := by
    rw [Nat.cast_sub (by omega : k ≤ n - 1), Nat.cast_sub (by omega : 1 ≤ n)]
    norm_num
  rw [e1]
  have harg : (-1 + 2 * ((n : ℝ) - 1 - (k:ℝ)) / ((n : ℝ) - 1))
      = -(-1 + 2 * (k:ℝ) / ((n : ℝ) - 1)) := by
    field_simp
    ring
  rw [harg, Real.arcsin_neg]
  ring

/-- C8 witness: EST_Angles 2 at k = 0 against its mirror k = 1. -/
theorem C8_witness :
    (EST_Angles 2).getD 0 0 = -((EST_Angles 2).getD (2 - 1 - 0) 0) :=
  C8_EST_Angles_symmetric 2 (by norm_num) 0 (by norm_num)

/-- C6: the per-iteration normalization divides element-wise by max(abs) only
when that maximum is nonzero (equivalently: only when the correction field is
not identically zero), and leaves the correction unchanged when the maximum
is zero, so no division by an unchecked zero occurs in the loop. -/
theorem C6_normalization_guard {S : ℕ} (bp : Image S) :
    (maxAbsImg bp = 0 ↔ ∀ i j, bp i j = 0) ∧
    (maxAbsImg bp = 0 → normalizeCorr bp = bp) ∧
    (maxAbsImg bp ≠ 0 → ∀ i j, normalizeCorr bp i j = bp i j / maxAbsImg bp) := by
  refine ⟨maxAbsImg_eq_zero_iff bp, ?_, ?_⟩
  · intro h
    unfold normalizeCorr
    rw [if_neg (not_not_intro h)]
  · intro h i j
    unfold normalizeCorr
    rw [if_pos h]

/-- C6 witness: a constant-2 one-pixel correction field is divided by its
maximum absolute value 2. -/
theorem C6_witness :
    maxAbsImg (fun _ _ => (2:ℚ) : Image 1) ≠ 0 ∧
    normalizeCorr (fun _ _ => (2:ℚ) : Image 1) 0 0 =
      (fun _ _ => (2:ℚ) : Image 1) 0 0 / maxAbsImg (fun _ _ => (2:ℚ) : Image 1) := by
  have h : maxAbsImg (fun _ _ => (2:ℚ) : Image 1) ≠ 0 := by
    norm_num [maxAbsImg, imgEntries, maxAbsList, List.finRange_succ_eq_map]
  exact ⟨h, (C6_normalization_guard (fun _ _ => (2:ℚ))).2.2 h 0 0⟩

/-- C9: EST_reco never mutates the observed sinogram or the angle set: in the
state-passing model of the loop both fields of the final state are equal to
the inputs, whatever the iteration budget and however the loop exits. -/
theorem C9_inputs_read_only {S : ℕ} {α : Type} [Neg α] (rot : α → Image S → Image S)
    (init : Image S) (sino : List (List ℚ)) (theta : List α)
    (numIter : ℕ) (tol lr : ℚ) :
    (EST_recoFull rot init sino theta numIter tol lr).frame.sino = sino ∧
    (EST_recoFull rot init sino theta numIter tol lr).frame.theta = theta :=
  estLoop_sino_theta rot (sino.headD []).length sino.length tol lr numIter
    ⟨sino, theta, init, none⟩

/-- C1: if at some iteration the absolute difference between the previous
max-error and the current max-error is strictly below tolerance — the check
compares successive max-errors, never the current error against tolerance —
the loop breaks and the run returns the state exactly as it stood at that
iteration's start: the converging iteration applies no update, normalization
or clipping (the result frame is the k-fold iterate of the loop body, with
nothing further applied). -/
theorem C1_converging_iteration_returns_start {S : ℕ} {α : Type} [Neg α]
    (rot : α → Image S → Image S) (init : Image S) (sino : List (List ℚ))
    (theta : List α) (numIter : ℕ) (tol lr : ℚ) (k : ℕ)
    (hbefore : ∀ j, j < k → checkFires rot (sino.headD []).length tol
      ((estBody rot (sino.headD []).length sino.length lr)^[j]
        (⟨sino, theta, init, none⟩ : Frame S α)) = false)
    (hfire : checkFires rot (sino.headD []).length tol
      ((estBody rot (sino.headD []).length sino.length lr)^[k]
        (⟨sino, theta, init, none⟩ : Frame S α)) = true)
    (hk : k < numIter) :
    EST_recoFull rot init sino theta numIter tol lr =
      ⟨(estBody rot (sino.headD []).length sino.length lr)^[k]
        (⟨sino, theta, init, none⟩ : Frame S α), k + 1, true⟩ ∧
    EST_reco rot init sino theta numIter tol lr =
      ((estBody rot (sino.headD []).length sino.length lr)^[k]
        (⟨sino, theta, init, none⟩ : Frame S α)).image := by
  have h := estLoop_fires_at rot (sino.headD []).length sino.length tol lr k numIter
    (⟨sino, theta, init, none⟩ : Frame S α) hbefore hfire hk
  refine ⟨h, ?_⟩
  unfold EST_reco EST_recoFull
  rw [h]

/-- C1 witness: a 1-pixel run where the check fails at iteration 0 (previous
error is infinite) and fires at iteration 1; the run returns the state after
exactly one body application. -/
theorem C1_witness :
    (∀ j, j < 1 → checkFires (fun (_ : ℚ) (img : Image 1) => img) 1 1
      ((estBody (fun (_ : ℚ) (img : Image 1) => img) 1 1 1)^[j]
        (⟨[[0]], [(0:ℚ)], fun _ _ => 0, none⟩ : Frame 1 ℚ)) = false) ∧
    checkFires (fun (_ : ℚ) (img : Image 1) => img) 1 1
      ((estBody (fun (_ : ℚ) (img : Image 1) => img) 1 1 1)^[1]
        (⟨[[0]], [(0:ℚ)], fun _ _ => 0, none⟩ : Frame 1 ℚ)) = true ∧
    (1:ℕ) < 5 ∧
    EST_recoFull (fun (_ : ℚ) (img : Image 1) => img) (fun _ _ => 0) [[0]] [(0:ℚ)]
        5 1 1 =
      ⟨(estBody (fun (_ : ℚ) (img : Image 1) => img) 1 1 1)^[1]
        (⟨[[0]], [(0:ℚ)], fun _ _ => 0, none⟩ : Frame 1 ℚ), 1 + 1, true⟩ := by
  have hb : ∀ j, j < 1 → checkFires (fun (_ : ℚ) (img : Image 1) => img) 1 1
      ((estBody (fun (_ : ℚ) (img : Image 1) => img) 1 1 1)^[j]
        (⟨[[0]], [(0:ℚ)], fun _ _ => 0, none⟩ : Frame 1 ℚ)) = false := by
    intro j hj
    have hj0 : j = 0 := by omega
    subst hj0
    rfl
  have hf : checkFires (fun (_ : ℚ) (img : Image 1) => img) 1 1
      ((estBody (fun (_ : ℚ) (img : Image 1) => img) 1 1 1)^[1]
        (⟨[[0]], [(0:ℚ)], fun _ _ => 0, none⟩ : Frame 1 ℚ)) = true := by
    norm_num [Function.iterate_one, estBody, checkFires, convCheck, project, colsum,
      resizeProfile, sub2, maxAbs2, maxAbsList, backproject, expandRow, normalizeCorr,
      maxAbsImg, imgEntries, List.finRange_succ_eq_map]
  refine ⟨hb, hf, by norm_num, ?_⟩
  exact (C1_converging_iteration_returns_start (fun (_ : ℚ) (img : Image 1) => img)
    (fun _ _ => 0) [[0]] [(0:ℚ)] 5 1 1 1 hb hf (by norm_num)).1

/-- C2: every completed iteration ends with the element-wise clip
Image ← max(Image, 0), so after any number of completed iterations ≥ 1 the
current image is non-negative, and so is the image EST_reco finally returns
whenever the iteration budget is at least 1, for every input sinogram, angle
set and (possibly negative) initial image. -/
theorem C2_nonneg_invariant {S : ℕ} {α : Type} [Neg α] (rot : α → Image S → Image S)
    (init : Image S) (sino : List (List ℚ)) (theta : List α)
    (numIter : ℕ) (tol lr : ℚ) (h : 1 ≤ numIter) :
    (∀ i j, 0 ≤ EST_reco rot init sino theta numIter tol lr i j) ∧
    (∀ k, 1 ≤ k → ∀ i j, 0 ≤
      ((estBody rot (sino.headD []).length sino.length lr)^[k]
        (⟨sino, theta, init, none⟩ : Frame S α)).image i j) := by
  constructor
  · intro i j
    obtain ⟨m, rfl⟩ : ∃ m, numIter = m + 1 := ⟨numIter - 1, by omega⟩
    have hcf : ¬ (checkFires rot (sino.headD []).length tol
        (⟨sino, theta, init, none⟩ : Frame S α) = true) := by
      rw [checkFires_of_none rot (sino.headD []).length tol _ rfl]
      exact Bool.false_ne_true
    unfold EST_reco EST_recoFull estLoop
    rw [if_neg hcf]
    exact estLoop_image_nonneg rot _ _ tol lr m _
      (estBody_image_nonneg rot _ _ lr _) i j
  · intro k hk i j
    obtain ⟨m, rfl⟩ : ∃ m, k = m + 1 := ⟨k - 1, by omega⟩
    rw [Function.iterate_succ_apply']
    exact estBody_image_nonneg rot _ _ lr _ i j

/-- C2 witness: one iteration on a 1-pixel problem with a negative initial
image still returns a non-negative pixel. -/
theorem C2_witness :
    1 ≤ 1 ∧
    0 ≤ EST_reco (fun (_ : ℚ) (img : Image 1) => img) (fun _ _ => -5) [[1]] [(0:ℚ)]
      1 1 1 0 0 :=
  ⟨le_refl 1, (C2_nonneg_invariant (fun (_ : ℚ) (img : Image 1) => img) (fun _ _ => -5)
    [[1]] [(0:ℚ)] 1 1 1 (le_refl 1)).1 0 0⟩

/-- C10: because previous_error starts at infinity (modelled by none), the
convergence branch can never be taken on the first iteration: whenever the
run reports convergence, at least two iterations were entered, so at least
one gradient update and non-negativity clip was applied before the exit —
hence the returned image is also non-negative. -/
theorem C10_first_iteration_never_converges {S : ℕ} {α : Type} [Neg α]
    (rot : α → Image S → Image S) (init : Image S) (sino : List (List ℚ))
    (theta : List α) (numIter : ℕ) (tol lr : ℚ)
    (h : (EST_recoFull rot init sino theta numIter tol lr).converged = true) :
    2 ≤ (EST_recoFull rot init sino theta numIter tol lr).iters ∧
    ∀ i j, 0 ≤ (EST_recoFull rot init sino theta numIter tol lr).frame.image i j := by
  cases numIter with
  | zero => cases h
  | succ m =>
    have hcf : ¬ (checkFires rot (sino.headD []).length tol
        (⟨sino, theta, init, none⟩ : Frame S α) = true) := by
      rw [checkFires_of_none rot (sino.headD []).length tol _ rfl]
      exact Bool.false_ne_true
    unfold EST_recoFull estLoop at h ⊢
    rw [if_neg hcf] at h ⊢
    constructor
    · exact Nat.succ_le_succ (estLoop_converged_iters rot (sino.headD []).length
        sino.length tol lr m _ h)
    · exact estLoop_image_nonneg rot _ _ tol lr m _
        (estBody_image_nonneg rot _ _ lr _)

/-- C10 witness: a converging 1-pixel run (zero residual, non-negative start)
reports convergence and at least 2 entered iterations. -/
theorem C10_witness :
    (EST_recoFull (fun (_ : ℚ) (img : Image 1) => img) (fun _ _ => 0) [[0]] [(0:ℚ)]
        2 1 1).converged = true ∧
    2 ≤ (EST_recoFull (fun (_ : ℚ) (img : Image 1) => img) (fun _ _ => 0) [[0]] [(0:ℚ)]
        2 1 1).iters := by
  have h : (EST_recoFull (fun (_ : ℚ) (img : Image 1) => img) (fun _ _ => 0) [[0]]
      [(0:ℚ)] 2 1 1).converged = true := by
    norm_num [EST_recoFull, estLoop, estBody, checkFires, convCheck, project, colsum,
      resizeProfile, sub2, maxAbs2, maxAbsList, backproject, expandRow, normalizeCorr,
      maxAbsImg, imgEntries, List.finRange_succ_eq_map]
  exact ⟨h, (C10_first_iteration_never_converges (fun (_ : ℚ) (img : Image 1) => img)
    (fun _ _ => 0) [[0]] [(0:ℚ)] 2 1 1 h).1⟩

/-- C3 counterexample: with an angle set of length 1, tolerance -1 and
learning rate 0 — all invalid per the claim — `EST_reco` raises nothing and
the loop body executes 3 times (3 iterations entered, each running the
projection and backprojection), so invalid input is not rejected at entry
and iterations are attempted on it. -/
theorem C3_counterexample :
    (EST_recoFull (fun (_ : ℚ) (img : Image 1) => img) (fun _ _ => 0) [[1]] [(0:ℚ)]
        3 (-1) 0).iters = 3 ∧
    (EST_recoFull (fun (_ : ℚ) (img : Image 1) => img) (fun _ _ => 0) [[1]] [(0:ℚ)]
        3 (-1) 0).converged = false := by
  constructor <;>
    norm_num [EST_recoFull, estLoop, estBody, checkFires, convCheck, project, colsum,
      resizeProfile, sub2, maxAbs2, maxAbsList, backproject, expandRow, normalizeCorr,
      maxAbsImg, imgEntries, List.finRange_succ_eq_map]

/-- C3 as amended: `EST_reco` performs no input validation at all. A
non-positive tolerance is accepted and simply disables early stopping (the
run never reports convergence); `num_iterations = 0` is accepted and returns
the initial estimate unchanged with zero iterations attempted; a length-1
angle set and a zero learning rate execute normally. -/
theorem C3_no_validation {S : ℕ} {α : Type} [Neg α] (rot : α → Image S → Image S)
    (init : Image S) (sino : List (List ℚ)) (theta : List α)
    (numIter : ℕ) (tol lr : ℚ) (h : tol ≤ 0) :
    (EST_recoFull rot init sino theta numIter tol lr).converged = false ∧
    EST_recoFull rot init sino theta 0 tol lr =
      ⟨⟨sino, theta, init, none⟩, 0, false⟩ ∧
    EST_reco rot init sino theta 0 tol lr = init :=
  ⟨estLoop_not_converged_of_nonpos rot _ _ lr h numIter _, rfl, rfl⟩

/-- C3 witness: tolerance -1, learning rate 0 and a length-1 angle set run to
budget exhaustion without ever converging. -/
theorem C3_witness :
    (-1 : ℚ) ≤ 0 ∧
    (EST_recoFull (fun (_ : ℚ) (img : Image 1) => img) (fun _ _ => 4) [[1]] [(0:ℚ)]
        7 (-1) 0).converged = false :=
  ⟨by norm_num, (C3_no_validation (fun (_ : ℚ) (img : Image 1) => img) (fun _ _ => 4)
    [[1]] [(0:ℚ)] 7 (-1) 0 (by norm_num)).1⟩

/-- Zero-residual run: when the observed sinogram is exactly the forward
projection of a non-negative initial image (and the rotation primitive maps
the zero image to itself), the first iteration leaves the image unchanged and
records max-error 0, and the second iteration's plateau check fires, for any
budget of the form m + 2. -/
theorem estLoop_zero_residual {S : ℕ} {α : Type} [Neg α]
    (rot : α → Image S → Image S) (D P : ℕ) (tol lr : ℚ)
    (theta : List α) (init : Image S) (m : ℕ)
    (hrot : ∀ a : α, rot a (fun _ _ => 0) = fun _ _ => 0)
    (hinit : ∀ i j, 0 ≤ init i j) (htol : 0 < tol) :
    estLoop rot D P tol lr (m + 2) ⟨project rot D theta init, theta, init, none⟩ =
      ⟨⟨project rot D theta init, theta, init, some 0⟩, 2, true⟩ := by
  have hb : estBody rot D P lr ⟨project rot D theta init, theta, init, none⟩ =
      ⟨project rot D theta init, theta, init, some 0⟩ :=
    estBody_zero_residual rot D P lr theta init none hrot hinit
  have hcf0 : ¬ (checkFires rot D tol
      (⟨project rot D theta init, theta, init, none⟩ : Frame S α) = true) := by
    rw [checkFires_of_none rot D tol _ rfl]
    exact Bool.false_ne_true
  have hcf1 : checkFires rot D tol
      (⟨project rot D theta init, theta, init, some 0⟩ : Frame S α) = true := by
    show convCheck (some 0)
      (maxAbs2 (sub2 (project rot D theta init) (project rot D theta init))) tol = true
    rw [maxAbs2_sub_self]
    show decide (|(0:ℚ) - 0| < tol) = true
    simp [htol]
  unfold estLoop
  rw [if_neg hcf0, hb]
  unfold estLoop
  rw [if_pos hcf1]

/-- C7 counterexample: a 1-pixel run whose observed sinogram is exactly the
forward projection of the initializer's output [[-1]] (zero residual), with
the source's default tolerance and a small learning rate. Because the first
iteration's clip changes the negative pixel to 0, the max-error jumps from 0
to 1, the plateau only fires on the third iteration, and the returned image
is [[0]], not the initial estimate [[-1]]. -/
theorem C7_counterexample :
    project (fun (_ : ℚ) (img : Image 1) => img)
      (([[(-1:ℚ)]] : List (List ℚ)).headD []).length [(0:ℚ)] (fun _ _ => -1) =
      [[(-1:ℚ)]] ∧
    (EST_recoFull (fun (_ : ℚ) (img : Image 1) => img) (fun _ _ => -1) [[(-1:ℚ)]]
        [(0:ℚ)] 4 (1/100000) (1/20000)).iters = 3 ∧
    (EST_recoFull (fun (_ : ℚ) (img : Image 1) => img) (fun _ _ => -1) [[(-1:ℚ)]]
        [(0:ℚ)] 4 (1/100000) (1/20000)).converged = true ∧
    (EST_recoFull (fun (_ : ℚ) (img : Image 1) => img) (fun _ _ => -1) [[(-1:ℚ)]]
        [(0:ℚ)] 4 (1/100000) (1/20000)).frame.image 0 0 = 0 ∧
    (fun _ _ => (-1:ℚ) : Image 1) 0 0 = -1 := by
  refine ⟨?_, ?_, ?_, ?_, rfl⟩ <;>
    norm_num [EST_recoFull, estLoop, estBody, checkFires, convCheck, project, colsum,
      resizeProfile, sub2, maxAbs2, maxAbsList, backproject, expandRow, normalizeCorr,
      maxAbsImg, imgEntries, List.finRange_succ_eq_map]

/-- C7 as amended: if the observed sinogram exactly equals the forward
projection of the initializer's output image, the initializer's output is
element-wise non-negative, the rotation primitive maps the zero image to
itself and the tolerance is positive, then for any budget ≥ 2 the run stops
at the second iteration (max-error stays 0, the plateau check fires) and
returns the initial estimate unchanged. -/
theorem C7_zero_residual_converges {S : ℕ} {α : Type} [Neg α]
    (rot : α → Image S → Image S) (init : Image S) (sino : List (List ℚ))
    (theta : List α) (numIter : ℕ) (tol lr : ℚ)
    (hrot : ∀ a : α, rot a (fun _ _ => 0) = fun _ _ => 0)
    (hinit : ∀ i j, 0 ≤ init i j)
    (htol : 0 < tol)
    (hsino : sino = project rot (sino.headD []).length theta init)
    (hiter : 2 ≤ numIter) :
    EST_recoFull rot init sino theta numIter tol lr =
      ⟨⟨sino, theta, init, some 0⟩, 2, true⟩ := by
  obtain ⟨m, rfl⟩ : ∃ m, numIter = m + 2 := ⟨numIter - 2, by omega⟩
  unfold EST_recoFull
  set D := (sino.headD []).length with hD
  rw [hsino]
  exact estLoop_zero_residual rot D (project rot D theta init).length tol lr
    theta init m hrot hinit htol

/-- C7 witness: a 1-pixel zero-residual run with non-negative initializer
output [[1]] stops at the second iteration and returns the initial estimate. -/
theorem C7_witness :
    (0:ℚ) < 1 ∧
    ([[(1:ℚ)]] : List (List ℚ)) =
      project (fun (_ : ℚ) (img : Image 1) => img)
        (([[(1:ℚ)]] : List (List ℚ)).headD []).length [(0:ℚ)] (fun _ _ => 1) ∧
    EST_recoFull (fun (_ : ℚ) (img : Image 1) => img) (fun _ _ => 1) [[(1:ℚ)]]
        [(0:ℚ)] 2 1 7 =
      ⟨⟨[[(1:ℚ)]], [(0:ℚ)], fun _ _ => 1, some 0⟩, 2, true⟩ := by
  have hrot : ∀ a : ℚ, (fun (_ : ℚ) (img : Image 1) => img) a (fun _ _ => 0) =
      (fun _ _ => 0 : Image 1) := fun a => rfl
  have hinit : ∀ i j, 0 ≤ (fun _ _ => (1:ℚ) : Image 1) i j := fun i j => by norm_num
  have htol : (0:ℚ) < 1 := by norm_num
  have hsino : ([[(1:ℚ)]] : List (List ℚ)) =
      project (fun (_ : ℚ) (img : Image 1) => img)
        (([[(1:ℚ)]] : List (List ℚ)).headD []).length [(0:ℚ)] (fun _ _ => 1) := by
    norm_num [project, colsum, resizeProfile, List.finRange_succ_eq_map]
  exact ⟨htol, hsino, C7_zero_residual_converges (fun (_ : ℚ) (img : Image 1) => img)
    (fun _ _ => 1) [[(1:ℚ)]] [(0:ℚ)] 2 1 7 hrot hinit htol hsino (by norm_num)⟩
